import Mathlib

/-!
Verification of the node-status aggregation core of the incognito-monitor
desktop application (src/electron/index.js).

The JavaScript source is shallowly embedded: each RPC call that may throw
is modelled as an `Except String` value, JavaScript variables that may be
left `undefined` become `Option`, and the mutable `let`-with-`try/catch`
control flow of the source functions is translated into explicit
case analysis that performs the same assignments in the same order.
The persisted node store is modelled as the list of endpoint records that
`readNodes` parses from the data file; file contents for the export/import
operations are modelled as raw byte lists addressed by path.
-/

/-- A registered node endpoint as persisted in the data file:
`{name, host, port}`. -/
structure Node where
  name : String
  host : String
  port : Nat
  deriving Repr, DecidableEq

/-- Response of `GetBeaconBestState`: the fields read by the source. -/
structure BeaconState where
  BeaconHeight : Nat
  BestBlockHash : String
  Epoch : Nat
  ActiveShards : Nat
  deriving Repr, DecidableEq

/-- Response of `GetShardBestState`: the fields read by the source. -/
structure ShardState where
  ShardHeight : Nat
  BestBlockHash : String
  Epoch : Nat
  TotalTxns : Nat
  deriving Repr, DecidableEq

/-- A raw block as returned by `GetBlocks`/`RetrieveBlock`.  `Txs`, `Fee`
and `Reward` may be absent (`undefined` in the JavaScript response), which
the source defaults with `|| 0`. -/
structure RawBlock where
  Height : Nat
  Hash : String
  BlockProducer : String
  Txs : Option Nat
  Fee : Option Nat
  Reward : Option Nat
  Time : Nat
  deriving Repr, DecidableEq

/-- The RPC client for one endpoint (`new ConstantRPC(host, port)`).
Each method is a remote call that can fail; a failure models a thrown
JavaScript error carrying a message. -/
structure ConstantRPC where
  GetNetworkInfo : Except String Unit
  GetBlockCount : Nat → Except String Nat
  GetBeaconBestState : Except String BeaconState
  GetShardBestState : Nat → Except String ShardState
  GetBlocks : Nat → Int → Except String (List RawBlock)

/-- The network environment: `new ConstantRPC(node.host, node.port)`
is modelled as looking up the client that host and port reach. -/
def Network : Type := String → Nat → ConstantRPC

/-- Result of `nodeWithStatus`: the endpoint fields spread into the reply
(`...node`) plus `status`, and the two numeric fields that stay
`undefined` (`none`) when the probe sequence fails before assigning them. -/
structure NodeStatusR where
  name : String
  host : String
  port : Nat
  status : String
  totalBlocks : Option Nat
  beaconHeight : Option Nat
  deriving Repr, DecidableEq

/-- Embedding of `nodeWithStatus` (src/electron/index.js lines 25-47).
`status` starts `OFFLINE` and `totalBlocks`/`beaconHeight` start
`undefined`; the `try` block runs `GetNetworkInfo`, assigns
`totalBlocks := GetBlockCount 0`, assigns `beaconHeight` from
`GetBeaconBestState`, then sets `status := ONLINE`.  A throw anywhere
jumps to the `catch`, keeping the assignments already made; the function
itself always returns. -/
def nodeWithStatus (net : Network) (node : Node) : NodeStatusR :=
  let rpc := net node.host node.port
  match rpc.GetNetworkInfo with
  | .error _ => ⟨node.name, node.host, node.port, "OFFLINE", none, none⟩
  | .ok _ =>
    match rpc.GetBlockCount 0 with
    | .error _ => ⟨node.name, node.host, node.port, "OFFLINE", none, none⟩
    | .ok count =>
      match rpc.GetBeaconBestState with
      | .error _ => ⟨node.name, node.host, node.port, "OFFLINE", some count, none⟩
      | .ok state =>
        ⟨node.name, node.host, node.port, "ONLINE", some count, some state.BeaconHeight⟩

/-- C1: when all three probe calls succeed, `nodeWithStatus` reports
ONLINE, `totalBlocks` is the block count, `beaconHeight` is the
`BeaconHeight` of the best-state response, and the endpoint fields are
carried over unchanged. -/
theorem nodeWithStatus_online (net : Network) (node : Node)
    (count : Nat) (state : BeaconState)
    (hnet : (net node.host node.port).GetNetworkInfo = .ok ())
    (hcount : (net node.host node.port).GetBlockCount 0 = .ok count)
    (hstate : (net node.host node.port).GetBeaconBestState = .ok state) :
    nodeWithStatus net node =
      ⟨node.name, node.host, node.port, "ONLINE", some count, some state.BeaconHeight⟩ := by
  simp [nodeWithStatus, hnet, hcount, hstate]

/-- Concrete network for witnesses: every probe succeeds. -/
def demoBeacon : BeaconState := ⟨100, "beaconhash", 5, 2⟩

/-- Concrete shard states for witnesses. -/
def demoShard (i : Nat) : ShardState := ⟨50 + 10 * i, "shardhash", 5, 7 + i⟩

/-- Concrete raw blocks for witnesses. -/
def demoBlock : RawBlock := ⟨42, "blockhash", "producerA", none, some 3, none, 1000⟩

/-- An RPC client whose calls all succeed. -/
def demoRPC : ConstantRPC where
  GetNetworkInfo := .ok ()
  GetBlockCount := fun _ => .ok 123
  GetBeaconBestState := .ok demoBeacon
  GetShardBestState := fun i => .ok (demoShard i)
  GetBlocks := fun _ _ => .ok [demoBlock]

/-- A network where every endpoint answers with `demoRPC`. -/
def demoNet : Network := fun _ _ => demoRPC

/-- A sample endpoint record. -/
def demoNode : Node := ⟨"X", "h1", 9334⟩

/-- Witness for C1 at a concrete healthy endpoint. -/
theorem nodeWithStatus_online_witness :
    nodeWithStatus demoNet demoNode =
      ⟨"X", "h1", 9334, "ONLINE", some 123, some 100⟩ :=
  nodeWithStatus_online demoNet demoNode 123 demoBeacon rfl rfl rfl

/-- An RPC client whose first two probes succeed and whose
`GetBeaconBestState` throws: the failure case C2 overlooks. -/
def lateFailRPC : ConstantRPC where
  GetNetworkInfo := .ok ()
  GetBlockCount := fun _ => .ok 5
  GetBeaconBestState := .error "connection reset"
  GetShardBestState := fun _ => .error "connection reset"
  GetBlocks := fun _ _ => .error "connection reset"

/-- A network where every endpoint answers with `lateFailRPC`. -/
def lateFailNet : Network := fun _ _ => lateFailRPC

/-- C2 counterexample: a probe call (`GetBeaconBestState`) throws, so the
claim requires both numeric fields to be absent; but because
`totalBlocks` was assigned before the failing call, `nodeWithStatus`
returns OFFLINE with `totalBlocks = some 5`, not `none`. -/
theorem nodeWithStatus_offline_counterexample :
    (lateFailNet demoNode.host demoNode.port).GetBeaconBestState.isOk = false ∧
    (nodeWithStatus lateFailNet demoNode).status = "OFFLINE" ∧
    (nodeWithStatus lateFailNet demoNode).totalBlocks ≠ none := by
  refine ⟨rfl, rfl, ?_⟩
  simp [nodeWithStatus, lateFailNet, lateFailRPC, demoNode]

/-- C2 amended: when any probe call throws, `nodeWithStatus` returns
OFFLINE (it never throws: it is total), `beaconHeight` is undefined, and
`totalBlocks` is undefined unless the failure happened in
`GetBeaconBestState` after `GetBlockCount` had already succeeded, in
which case it holds that block count. -/
theorem nodeWithStatus_offline (net : Network) (node : Node)
    (hfail : (net node.host node.port).GetNetworkInfo.isOk = false ∨
      ((net node.host node.port).GetBlockCount 0).isOk = false ∨
      (net node.host node.port).GetBeaconBestState.isOk = false) :
    (nodeWithStatus net node).status = "OFFLINE" ∧
    (nodeWithStatus net node).beaconHeight = none ∧
    ((nodeWithStatus net node).totalBlocks = none ∨
      (∃ count, (net node.host node.port).GetBlockCount 0 = .ok count ∧
        (net node.host node.port).GetBeaconBestState.isOk = false ∧
        (nodeWithStatus net node).totalBlocks = some count)) := by
  rcases hni : (net node.host node.port).GetNetworkInfo with e | u
  · refine ⟨?_, ?_, Or.inl ?_⟩ <;> simp [nodeWithStatus, hni]
  · rcases hbc : (net node.host node.port).GetBlockCount 0 with e | count
    · refine ⟨?_, ?_, Or.inl ?_⟩ <;> simp [nodeWithStatus, hni, hbc]
    · rcases hbs : (net node.host node.port).GetBeaconBestState with e | state
      · refine ⟨?_, ?_, Or.inr ⟨count, ?_, ?_, ?_⟩⟩ <;>
          simp [nodeWithStatus, hni, hbc, hbs, Except.isOk, Except.toBool]
      · exfalso
        rcases hfail with h | h | h
        · rw [hni] at h; simp [Except.isOk, Except.toBool] at h
        · rw [hbc] at h; simp [Except.isOk, Except.toBool] at h
        · rw [hbs] at h; simp [Except.isOk, Except.toBool] at h

/-- Witness for the amended C2 at a concrete endpoint whose
`GetBeaconBestState` fails. -/
theorem nodeWithStatus_offline_witness :
    (nodeWithStatus lateFailNet demoNode).status = "OFFLINE" ∧
    (nodeWithStatus lateFailNet demoNode).beaconHeight = none ∧
    ((nodeWithStatus lateFailNet demoNode).totalBlocks = none ∨
      (∃ count, (lateFailNet demoNode.host demoNode.port).GetBlockCount 0 = .ok count ∧
        (lateFailNet demoNode.host demoNode.port).GetBeaconBestState.isOk = false ∧
        (nodeWithStatus lateFailNet demoNode).totalBlocks = some count)) :=
  nodeWithStatus_offline lateFailNet demoNode (Or.inr (Or.inr rfl))

/-- One chain summary entry as pushed by `getChains`.  `totalTxs` is only
set for shard entries (the beacon push omits it). -/
structure Chain where
  name : String
  height : Nat
  hash : String
  epoch : Nat
  totalTxs : Option Nat
  index : Int
  deriving Repr, DecidableEq

/-- The beacon entry pushed first by `getChains` (index -1). -/
def beaconChain (beaconInfo : BeaconState) : Chain :=
  ⟨"Beacon", beaconInfo.BeaconHeight, beaconInfo.BestBlockHash, beaconInfo.Epoch,
    none, -1⟩

/-- The entry pushed for shard `shardIndex` by `getChains`. -/
def shardChain (shardIndex : Nat) (shard : ShardState) : Chain :=
  ⟨s!"Shard {shardIndex + 1}", shard.ShardHeight, shard.BestBlockHash, shard.Epoch,
    some shard.TotalTxns, (shardIndex : Int)⟩

/-- The fan-out over shard indices inside `getChains`.  The parameter
`order` is the order in which the parallel `GetShardBestState` promises
resolve and push their entries; if any of them rejects, the surrounding
`Promise.all` rejects. -/
def collectShards (rpc : ConstantRPC) : List Nat → Except String (List Chain)
  | [] => .ok []
  | i :: rest =>
    match rpc.GetShardBestState i with
    | .error e => .error e
    | .ok shard =>
      match collectShards rpc rest with
      | .error e => .error e
      | .ok tail => .ok (shardChain i shard :: tail)

/-- Embedding of `_.orderBy(chains, 'index')`: a stable sort ascending by
the `index` field. -/
def orderByIndex (chains : List Chain) : List Chain :=
  chains.mergeSort (fun a b => decide (a.index ≤ b.index))

/-- The reply of `getChains`: on success the `nodeWithStatus` record with
the sorted chain list attached, on any failure `{chains: [], name}`. -/
structure ChainsReply where
  name : String
  chains : List Chain
  info : Option NodeStatusR
  deriving Repr, DecidableEq

/-- Embedding of `getChains` (src/electron/index.js lines 115-156).  The
whole body is wrapped in `try/catch`: a failed name lookup (`node` is
`undefined`, so `node.host` throws), a failed `GetBeaconBestState`, or
any failed `GetShardBestState` lands in the `catch`, which replies
`{chains: [], name: nodeName}`.  `order` is the resolution order of the
parallel shard queries (a permutation of `range ActiveShards`). -/
def getChains (net : Network) (store : List Node) (nodeName : String)
    (order : List Nat) : ChainsReply :=
  match store.find? (fun item => item.name == nodeName) with
  | none => ⟨nodeName, [], none⟩
  | some node =>
    let rpc := net node.host node.port
    match rpc.GetBeaconBestState with
    | .error _ => ⟨nodeName, [], none⟩
    | .ok beaconInfo =>
      match collectShards rpc order with
      | .error _ => ⟨nodeName, [], none⟩
      | .ok shardChains =>
        ⟨node.name, orderByIndex (beaconChain beaconInfo :: shardChains),
          some (nodeWithStatus net node)⟩

/-- When every shard query in `order` succeeds, `collectShards` returns
the entries in resolution order. -/
theorem collectShards_ok (rpc : ConstantRPC) (st : Nat → ShardState)
    (order : List Nat)
    (h : ∀ i ∈ order, rpc.GetShardBestState i = .ok (st i)) :
    collectShards rpc order = .ok (order.map (fun i => shardChain i (st i))) := by
  induction order with
  | nil => rfl
  | cons i rest ih =>
    have hi : rpc.GetShardBestState i = .ok (st i) := h i (List.mem_cons_self i rest)
    have hrest := ih (fun j hj => h j (List.mem_cons_of_mem i hj))
    simp [collectShards, hi, hrest]

/-- When some shard query in `order` fails, `collectShards` fails. -/
theorem collectShards_error (rpc : ConstantRPC) (order : List Nat)
    (h : ∃ i ∈ order, (rpc.GetShardBestState i).isOk = false) :
    ∃ e, collectShards rpc order = .error e := by
  induction order with
  | nil => simp at h
  | cons i rest ih =>
    rcases h with ⟨j, hj, hfail⟩
    rcases List.mem_cons.mp hj with rfl | hjrest
    · rcases hcall : rpc.GetShardBestState j with e | shard
      · exact ⟨e, by simp [collectShards, hcall]⟩
      · rw [hcall] at hfail; simp [Except.isOk, Except.toBool] at hfail
    · rcases hcall : rpc.GetShardBestState i with e | shard
      · exact ⟨e, by simp [collectShards, hcall]⟩
      · rcases ih ⟨j, hjrest, hfail⟩ with ⟨e, he⟩
        exact ⟨e, by simp [collectShards, hcall, he]⟩

/-- A stable sort by `index` of a list whose `index` keys are pairwise
distinct yields the unique strictly-sorted reordering. -/
theorem orderByIndex_eq_of_perm_of_sorted (l1 l2 : List Chain)
    (hperm : l1.Perm l2)
    (hsorted : l2.Pairwise (fun a c => a.index < c.index)) :
    orderByIndex l1 = l2 := by
  haveI : IsAntisymm Chain (fun a c => a.index < c.index) :=
    ⟨fun a c h1 h2 => absurd h2 (not_lt.mpr (le_of_lt h1))⟩
  have hperm2 : (orderByIndex l1).Perm l2 :=
    (List.mergeSort_perm l1 _).trans hperm
  have hle : List.Pairwise (fun a c => decide (a.index ≤ c.index) = true) (orderByIndex l1) :=
    List.sorted_mergeSort
      (by intro a c d h1 h2; simp only [decide_eq_true_eq] at *; omega)
      (by intro a c; simp [Int.le_total]) l1
  have hne : List.Pairwise (fun a c => a.index ≠ c.index) (orderByIndex l1) := by
    have h2 : l2.Pairwise (fun a c => a.index ≠ c.index) :=
      hsorted.imp (fun h => ne_of_lt h)
    exact (hperm2.pairwise_iff (fun h => Ne.symm h)).mpr h2
  have hlt : List.Sorted (fun a c => a.index < c.index) (orderByIndex l1) :=
    (hle.and hne).imp (fun h => lt_of_le_of_ne (by simpa using h.1) h.2)
  have hsorted2 : List.Sorted (fun a c => a.index < c.index) l2 := hsorted
  exact List.eq_of_perm_of_sorted hperm2 hlt hsorted2

/-- C3: when the node is found, its beacon best-state call succeeds with
`N = ActiveShards`, and every shard query below `N` succeeds, `getChains`
returns the beacon entry followed by the shard entries for `0, ..., N-1`
in ascending index order — for every resolution order of the parallel
shard queries, so the reply is deterministic; it has `N + 1` entries,
exactly one of them with index `-1`, and is strictly ascending in
`index`. -/
theorem getChains_complete_sorted (net : Network) (store : List Node)
    (nodeName : String) (node : Node) (order : List Nat)
    (b : BeaconState) (st : Nat → ShardState)
    (hfind : store.find? (fun item => item.name == nodeName) = some node)
    (hb : (net node.host node.port).GetBeaconBestState = .ok b)
    (hs : ∀ i < b.ActiveShards,
      (net node.host node.port).GetShardBestState i = .ok (st i))
    (horder : order.Perm (List.range b.ActiveShards)) :
    (getChains net store nodeName order).chains =
      beaconChain b ::
        (List.range b.ActiveShards).map (fun i => shardChain i (st i)) ∧
    (getChains net store nodeName order).chains.length = b.ActiveShards + 1 ∧
    ((getChains net store nodeName order).chains.filter
      (fun c => c.index == -1)).length = 1 ∧
    List.Pairwise (fun a c => a.index < c.index)
      (getChains net store nodeName order).chains := by
  have hmem : ∀ i ∈ order, (net node.host node.port).GetShardBestState i = .ok (st i) := by
    intro i hi
    exact hs i (List.mem_range.mp (horder.mem_iff.mp hi))
  have hcollect := collectShards_ok (net node.host node.port) st order hmem
  have hsorted : List.Pairwise (fun a c => a.index < c.index)
      (beaconChain b ::
        (List.range b.ActiveShards).map (fun i => shardChain i (st i))) := by
    rw [List.pairwise_cons]
    constructor
    · intro c hc
      rcases List.mem_map.mp hc with ⟨i, _, rfl⟩
      simp [beaconChain, shardChain]
      omega
    · refine List.Pairwise.map _ ?_ (List.pairwise_lt_range b.ActiveShards)
      intro i j hij
      simp [shardChain]
      omega
  have hperm : (beaconChain b :: order.map (fun i => shardChain i (st i))).Perm
      (beaconChain b ::
        (List.range b.ActiveShards).map (fun i => shardChain i (st i))) :=
    (horder.map (fun i => shardChain i (st i))).cons (beaconChain b)
  have hchains : (getChains net store nodeName order).chains =
      beaconChain b ::
        (List.range b.ActiveShards).map (fun i => shardChain i (st i)) := by
    simp only [getChains, hfind, hb, hcollect]
    exact orderByIndex_eq_of_perm_of_sorted _ _ hperm hsorted
  refine ⟨hchains, ?_, ?_, ?_⟩
  · rw [hchains]; simp
  · rw [hchains]
    have hfil : ((List.range b.ActiveShards).map
        (fun i => shardChain i (st i))).filter (fun c => c.index == -1) = [] := by
      rw [List.filter_eq_nil_iff]
      intro c hc
      rcases List.mem_map.mp hc with ⟨i, _, rfl⟩
      simp [shardChain]
    simp [List.filter, beaconChain, hfil]
  · rw [hchains]; exact hsorted

/-- Witness for C3: a two-shard node queried through `demoNet`, with the
shard promises resolving out of order (shard 1 before shard 0). -/
theorem getChains_complete_sorted_witness :
    (getChains demoNet [demoNode] "X" [1, 0]).chains =
      beaconChain demoBeacon ::
        (List.range demoBeacon.ActiveShards).map (fun i => shardChain i (demoShard i)) :=
  (getChains_complete_sorted demoNet [demoNode] "X" demoNode [1, 0]
    demoBeacon demoShard rfl rfl (fun i _ => rfl) (by decide)).1

/-- C4: any failure — the name absent from the store, a failing beacon
best-state call, or any failing shard best-state call — makes `getChains`
reply exactly `{chains: [], name: nodeName}`; nothing partial escapes and
no error propagates (the function is total). -/
theorem getChains_degrades (net : Network) (store : List Node)
    (nodeName : String) (order : List Nat)
    (hfail : store.find? (fun item => item.name == nodeName) = none ∨
      ∃ node, store.find? (fun item => item.name == nodeName) = some node ∧
        ((net node.host node.port).GetBeaconBestState.isOk = false ∨
          ∃ i ∈ order,
            ((net node.host node.port).GetShardBestState i).isOk = false)) :
    getChains net store nodeName order = ⟨nodeName, [], none⟩ := by
  rcases hfail with hnone | ⟨node, hfind, hrest⟩
  · simp [getChains, hnone]
  · rcases hrest with hbeacon | hshard
    · rcases hb : (net node.host node.port).GetBeaconBestState with e | binfo
      · simp [getChains, hfind, hb]
      · rw [hb] at hbeacon; simp [Except.isOk, Except.toBool] at hbeacon
    · rcases collectShards_error (net node.host node.port) order hshard with ⟨e, he⟩
      rcases hb : (net node.host node.port).GetBeaconBestState with e2 | binfo
      · simp [getChains, hfind, hb]
      · simp [getChains, hfind, hb, he]

/-- Witness for C4: a lookup in an empty store degrades to the empty
chain list tagged with the requested name. -/
theorem getChains_degrades_witness :
    getChains demoNet [] "X" [] = ⟨"X", [], none⟩ :=
  getChains_degrades demoNet [] "X" [] (Or.inl rfl)

/-- A formatted block as produced inside `getBlocks`; the optional raw
fields `Txs`, `Fee`, `Reward` are defaulted to `0` by `|| 0`. -/
structure BlockSummary where
  height : Nat
  hash : String
  producer : String
  tXS : Nat
  fee : Nat
  reward : Nat
  time : Nat
  deriving Repr, DecidableEq

/-- Embedding of the per-block mapping inside `getBlocks` (lines
166-174). -/
def formatBlock (block : RawBlock) : BlockSummary :=
  ⟨block.Height, block.Hash, block.BlockProducer,
    block.Txs.getD 0, block.Fee.getD 0, block.Reward.getD 0, block.Time⟩

/-- The reply of `getBlocks`: the chain display record with the formatted
block list attached. -/
structure BlocksReply where
  name : String
  totalBlocks : Nat
  producer : String
  blocks : List BlockSummary
  deriving Repr, DecidableEq

/-- Embedding of `getBlocks` (src/electron/index.js lines 158-187).
There is no `try/catch` here: a failed name lookup, a failed `GetBlocks`
call, or reading `formattedBlocks[0]` from an empty batch all throw to
the caller, modelled as `Except.error`. -/
def getBlocks (net : Network) (store : List Node) (nodeName : String)
    (shardId : Int) : Except String BlocksReply :=
  match store.find? (fun item => item.name == nodeName) with
  | none => .error "TypeError: cannot read properties of undefined"
  | some node =>
    let rpc := net node.host node.port
    match rpc.GetBlocks 10 shardId with
    | .error e => .error e
    | .ok blocks =>
      let formattedBlocks := blocks.map formatBlock
      match formattedBlocks with
      | [] => .error "TypeError: cannot read properties of undefined"
      | latestBlock :: _ =>
        .ok ⟨if shardId = -1 then "Beacon" else s!"Shard {shardId + 1}",
          latestBlock.height, latestBlock.producer, formattedBlocks⟩

/-- C5: on a non-empty fetched batch, `getBlocks` succeeds; each raw
block is mapped by `formatBlock`, whose absent tx count, fee and reward
map to `0`; and the chain display fields `totalBlocks`/`producer` are the
height and producer of the first block of the batch. -/
theorem getBlocks_nonempty (net : Network) (store : List Node)
    (nodeName : String) (shardId : Int) (node : Node)
    (first : RawBlock) (rest : List RawBlock)
    (hfind : store.find? (fun item => item.name == nodeName) = some node)
    (hrpc : (net node.host node.port).GetBlocks 10 shardId = .ok (first :: rest)) :
    getBlocks net store nodeName shardId =
      .ok ⟨if shardId = -1 then "Beacon" else s!"Shard {shardId + 1}",
        first.Height, first.BlockProducer,
        (first :: rest).map formatBlock⟩ ∧
    (∀ block : RawBlock, block.Txs = none → (formatBlock block).tXS = 0) ∧
    (∀ block : RawBlock, block.Fee = none → (formatBlock block).fee = 0) ∧
    (∀ block : RawBlock, block.Reward = none → (formatBlock block).reward = 0) := by
  refine ⟨?_, ?_, ?_, ?_⟩
  · simp [getBlocks, hfind, hrpc, formatBlock]
  · intro block h; simp [formatBlock, h]
  · intro block h; simp [formatBlock, h]
  · intro block h; simp [formatBlock, h]

/-- Witness for C5: a one-block batch fetched through `demoNet`; the
block has no tx count and no reward, which format to `0`. -/
theorem getBlocks_nonempty_witness :
    getBlocks demoNet [demoNode] "X" 0 =
      .ok ⟨"Shard 1", 42, "producerA", [⟨42, "blockhash", "producerA", 0, 3, 0, 1000⟩]⟩ := by
  have h := (getBlocks_nonempty demoNet [demoNode] "X" 0 demoNode
    demoBlock [] rfl rfl).1
  rw [h]
  rfl

/-- An RPC client whose `GetBlocks` answers with an empty batch. -/
def emptyBatchRPC : ConstantRPC where
  GetNetworkInfo := .ok ()
  GetBlockCount := fun _ => .ok 123
  GetBeaconBestState := .ok demoBeacon
  GetShardBestState := fun i => .ok (demoShard i)
  GetBlocks := fun _ _ => .ok []

/-- A network where every endpoint answers with `emptyBatchRPC`. -/
def emptyBatchNet : Network := fun _ _ => emptyBatchRPC

/-- C10: when the fetched batch is empty, `getBlocks` fails (the source
reads `formattedBlocks[0].height` off an `undefined` element) instead of
returning a chain summary with an empty block list: a non-empty batch is
a precondition. -/
theorem getBlocks_empty_batch_fails (net : Network) (store : List Node)
    (nodeName : String) (shardId : Int) (node : Node)
    (hfind : store.find? (fun item => item.name == nodeName) = some node)
    (hrpc : (net node.host node.port).GetBlocks 10 shardId = .ok []) :
    ∃ e, getBlocks net store nodeName shardId = .error e := by
  refine ⟨"TypeError: cannot read properties of undefined", ?_⟩
  simp [getBlocks, hfind, hrpc]

/-- Witness for C10: node "X" queried through a network whose `GetBlocks`
returns an empty list. -/
theorem getBlocks_empty_batch_fails_witness :
    ∃ e, getBlocks emptyBatchNet [demoNode] "X" 0 = .error e :=
  getBlocks_empty_batch_fails emptyBatchNet [demoNode] "X" 0 demoNode rfl rfl

/-- Embedding of the store update in `addNode` (lines 49-64): the
persisted list is read, the new endpoint is spread after the existing
entries (`[...nodes, newNode]`), and the result is written back.  What a
subsequent `readNodes` parses is exactly this list. -/
def addNode (nodes : List Node) (newNode : Node) : List Node :=
  nodes ++ [newNode]

/-- Embedding of the store update in `deleteNode` (lines 210-224): the
persisted list is filtered, keeping every entry whose `name` differs from
the requested one. -/
def deleteNode (nodes : List Node) (nodeName : String) : List Node :=
  nodes.filter (fun node => node.name != nodeName)

/-- C6: after `add`, the list is the previous list with the new endpoint
appended: the first `length` entries are the previous entries in their
previous order, and the suffix after them is exactly one copy of the new
endpoint (so its occurrence count grows by exactly one). -/
theorem addNode_appends (nodes : List Node) (newNode : Node) :
    addNode nodes newNode = nodes ++ [newNode] ∧
    (addNode nodes newNode).take nodes.length = nodes ∧
    (addNode nodes newNode).drop nodes.length = [newNode] ∧
    (addNode nodes newNode).count newNode = nodes.count newNode + 1 := by
  refine ⟨rfl, ?_, ?_, ?_⟩
  · simp [addNode]
  · simp [addNode]
  · simp [addNode]

/-- C7: `deleteNode` removes exactly the entries whose name matches,
keeping the rest in order; on a store with no matching entry it is the
identity, and it is idempotent. -/
theorem deleteNode_removes (nodes : List Node) (nodeName : String) :
    (∀ node ∈ deleteNode nodes nodeName, node.name ≠ nodeName) ∧
    deleteNode nodes nodeName =
      nodes.filter (fun node => node.name != nodeName) ∧
    ((∀ node ∈ nodes, node.name ≠ nodeName) → deleteNode nodes nodeName = nodes) ∧
    deleteNode (deleteNode nodes nodeName) nodeName = deleteNode nodes nodeName := by
  refine ⟨?_, rfl, ?_, ?_⟩
  · intro node hmem
    have := List.of_mem_filter hmem
    simpa using this
  · intro habsent
    apply List.filter_eq_self.mpr
    intro node hmem
    simpa using habsent node hmem
  · apply List.filter_eq_self.mpr
    intro node hmem
    have := List.of_mem_filter hmem
    simpa using this

/-- Witness for C7 at the spec's scenario: store `[{A,h1,1}]`, deleting
"A" empties the store and deleting "A" again keeps it empty. -/
theorem deleteNode_removes_witness :
    (∀ node ∈ deleteNode [Node.mk "A" "h1" 1] "A", node.name ≠ "A") ∧
    deleteNode [Node.mk "A" "h1" 1] "A" =
      [Node.mk "A" "h1" 1].filter (fun node => node.name != "A") ∧
    ((∀ node ∈ [Node.mk "A" "h1" 1], node.name ≠ "A") →
      deleteNode [Node.mk "A" "h1" 1] "A" = [Node.mk "A" "h1" 1]) ∧
    deleteNode (deleteNode [Node.mk "A" "h1" 1] "A") "A" =
      deleteNode [Node.mk "A" "h1" 1] "A" :=
  deleteNode_removes [Node.mk "A" "h1" 1] "A"

/-- Store states reachable through the add and remove operations,
starting from the empty persisted list. -/
inductive Reachable : List Node → Prop
  | init : Reachable []
  | add (s : List Node) (e : Node) : Reachable s → Reachable (addNode s e)
  | remove (s : List Node) (n : String) : Reachable s → Reachable (deleteNode s n)

/-- No two entries of the store share a name. -/
def namesUnique (nodes : List Node) : Prop :=
  nodes.Pairwise (fun a b => a.name ≠ b.name)

/-- C9 counterexample: adding the same endpoint twice from the empty
store is reachable, and the resulting state has two entries named "A":
`addNode` never checks for duplicates, so name uniqueness is not an
invariant of the reachable states. -/
theorem namesUnique_counterexample :
    Reachable (addNode (addNode [] (Node.mk "A" "h1" 1)) (Node.mk "A" "h1" 1)) ∧
    ¬ namesUnique (addNode (addNode [] (Node.mk "A" "h1" 1)) (Node.mk "A" "h1" 1)) := by
  constructor
  · exact Reachable.add _ _ (Reachable.add _ _ Reachable.init)
  · intro h
    simp [namesUnique, addNode, List.pairwise_cons] at h

/-- Store states reachable through add and remove when every added
endpoint carries a name not already present at the time of the add. -/
inductive ReachableFresh : List Node → Prop
  | init : ReachableFresh []
  | add (s : List Node) (e : Node) : ReachableFresh s →
      (∀ x ∈ s, x.name ≠ e.name) → ReachableFresh (addNode s e)
  | remove (s : List Node) (n : String) : ReachableFresh s →
      ReachableFresh (deleteNode s n)

/-- C9 amended: name uniqueness is an invariant of the store only under
the proviso the spec itself flags as unenforced — every `add` must use a
name that is fresh at the time of the add.  Under that proviso, every
reachable state has pairwise distinct names (`remove` alone always
preserves uniqueness, since it filters). -/
theorem namesUnique_of_reachableFresh (s : List Node)
    (h : ReachableFresh s) : namesUnique s := by
  induction h with
  | init => exact List.Pairwise.nil
  | add s e _ hfresh ih =>
    unfold addNode namesUnique
    rw [List.pairwise_append]
    refine ⟨ih, List.pairwise_singleton _ _, ?_⟩
    intro a ha b hb
    simp only [List.mem_singleton] at hb
    subst hb
    exact hfresh a ha
  | remove s n _ ih =>
    exact List.Pairwise.filter _ ih

/-- Witness for the amended C9: the two-step run that adds "A" and then
"B" (fresh at that point) yields a store with unique names. -/
theorem namesUnique_of_reachableFresh_witness :
    namesUnique (addNode (addNode [] (Node.mk "A" "h1" 1)) (Node.mk "B" "h2" 2)) :=
  namesUnique_of_reachableFresh _
    (ReachableFresh.add _ _ (ReachableFresh.add _ _ ReachableFresh.init (by simp))
      (by intro x hx; simp [addNode] at hx; subst hx; simp))

/-- The path of the persisted endpoint record (`~/incognito-data`). -/
def dataPath : String := "incognito-data"

/-- The file system visible to the export and import handlers: the bytes
stored at each path, or `none` where no file exists. -/
def FileSystem : Type := String → Option (List Nat)

/-- A piped read/write stream: the bytes at `src` replace the file at
`dst`, unchanged. -/
def copyFile (fs : FileSystem) (src dst : String) : FileSystem :=
  fun p => if p = dst then fs src else fs p

/-- Embedding of `exportNodes` (lines 87-99): the save dialog yields
either a destination path or nothing; with a destination the persisted
record is stream-copied there and the reply is "success", otherwise the
reply is "cancel" and no file changes. -/
def exportNodes (fs : FileSystem) (savedFilePath : Option String) :
    FileSystem × String :=
  match savedFilePath with
  | some dst => (copyFile fs dataPath dst, "success")
  | none => (fs, "cancel")

/-- Embedding of `importNodes` (lines 101-113): the open dialog yields a
list of chosen paths; when it is non-empty the first one is stream-copied
over the persisted record and the reply is "success", otherwise
"cancel". -/
def importNodes (fs : FileSystem) (filePath : List String) :
    FileSystem × String :=
  match filePath with
  | src :: _ => (copyFile fs src dataPath, "success")
  | [] => (fs, "cancel")

/-- C8: export copies the persisted record byte-for-byte to the chosen
destination, import copies the chosen source byte-for-byte over the
persisted record, and the export-then-import round trip through any
destination restores exactly the original record bytes. -/
theorem export_import_roundtrip (fs : FileSystem) (dest : String) :
    (exportNodes fs (some dest)).1 dest = fs dataPath ∧
    (exportNodes fs (some dest)).2 = "success" ∧
    (importNodes (exportNodes fs (some dest)).1 [dest]).1 dataPath =
      (exportNodes fs (some dest)).1 dest ∧
    (importNodes (exportNodes fs (some dest)).1 [dest]).2 = "success" ∧
    (importNodes (exportNodes fs (some dest)).1 [dest]).1 dataPath =
      fs dataPath := by
  refine ⟨?_, rfl, ?_, rfl, ?_⟩ <;>
    simp [exportNodes, importNodes, copyFile]
